import Mathlib

/-!
Verification of `src/lib/constraints.ts`: French stylistic writing constraints
(lipogram, monovocalism, tautogram, alliteration).

JavaScript strings are modelled as `List Char` (`Str`). Each JS operation the
source uses is embedded explicitly:
  * `String.prototype.toLowerCase` — char-wise `jsToLower`, covering ASCII
    `A`–`Z` and the Latin-1 uppercase letters `À`–`Þ` (except `×`), which are
    the ranges relevant to the source's alphabet and French text;
  * `String.prototype.normalize('NFD')` — `nfdStr`, driven by an explicit
    canonical-decomposition table for the precomposed Latin letters used in
    French (lowercase and uppercase);
  * `.replace(/[̀-ͯ]/g, '')` — `List.filter` dropping the
    combining-mark range;
  * `String.prototype.includes` — `includesSub` (contiguous substring);
  * `String.prototype.startsWith` — `startsWith` (prefix);
  * `text.match(WORD_REGEX)` with `WORD_REGEX = /[\w'-]+(?<!-)/g` —
    `matchWords`. The regex takes each maximal run of `[A-Za-z0-9_'-]`
    characters; the greedy `+` followed by the look-behind `(?<!-)`
    backtracks one character at a time until the match no longer ends in a
    hyphen, so the match produced from a run is the run with its trailing
    hyphens removed, and a run consisting solely of hyphens produces no
    match.  Matching then resumes at the end of the produced match; the
    characters of the run left behind are all hyphens, and every restart
    position inside such a hyphen tail again yields no match, so scanning a
    run wholesale and emitting its trimmed form (when nonempty) reproduces
    the regex exactly.
-/

abbrev Str := List Char

/-- Char-wise model of JS `toLowerCase` on the ranges relevant here:
ASCII uppercase and Latin-1 uppercase accented letters (`À`..`Þ` except `×`)
map down by 32; every other character is unchanged. -/
def jsToLower (c : Char) : Char :=
  if 65 ≤ c.toNat && c.toNat ≤ 90 then Char.ofNat (c.toNat + 32)
  else if 192 ≤ c.toNat && c.toNat ≤ 222 && c.toNat != 215 then Char.ofNat (c.toNat + 32)
  else c

def jsToLowerStr (s : Str) : Str := s.map jsToLower

/-- Combining diacritical marks block U+0300–U+036F, the range erased by
`.replace(/[̀-ͯ]/g, '')`. -/
def combining (c : Char) : Bool := 768 ≤ c.toNat && c.toNat ≤ 879

def accGrave : Char := Char.ofNat 768
def accAcute : Char := Char.ofNat 769
def accCirc : Char := Char.ofNat 770
def accTilde : Char := Char.ofNat 771
def accDiaer : Char := Char.ofNat 776
def accCedil : Char := Char.ofNat 807

/-- Canonical (NFD) decompositions of the precomposed Latin letters relevant
to French text, lowercase and uppercase. A character absent from the table is
its own decomposition. -/
def decompTable : List (Char × Str) := [
  ('à', ['a', accGrave]), ('á', ['a', accAcute]), ('â', ['a', accCirc]),
  ('ã', ['a', accTilde]), ('ä', ['a', accDiaer]),
  ('è', ['e', accGrave]), ('é', ['e', accAcute]), ('ê', ['e', accCirc]),
  ('ë', ['e', accDiaer]),
  ('ì', ['i', accGrave]), ('í', ['i', accAcute]), ('î', ['i', accCirc]),
  ('ï', ['i', accDiaer]),
  ('ò', ['o', accGrave]), ('ó', ['o', accAcute]), ('ô', ['o', accCirc]),
  ('õ', ['o', accTilde]), ('ö', ['o', accDiaer]),
  ('ù', ['u', accGrave]), ('ú', ['u', accAcute]), ('û', ['u', accCirc]),
  ('ü', ['u', accDiaer]),
  ('ç', ['c', accCedil]), ('ñ', ['n', accTilde]), ('ÿ', ['y', accDiaer]),
  ('À', ['A', accGrave]), ('Á', ['A', accAcute]), ('Â', ['A', accCirc]),
  ('Ã', ['A', accTilde]), ('Ä', ['A', accDiaer]),
  ('È', ['E', accGrave]), ('É', ['E', accAcute]), ('Ê', ['E', accCirc]),
  ('Ë', ['E', accDiaer]),
  ('Ì', ['I', accGrave]), ('Í', ['I', accAcute]), ('Î', ['I', accCirc]),
  ('Ï', ['I', accDiaer]),
  ('Ò', ['O', accGrave]), ('Ó', ['O', accAcute]), ('Ô', ['O', accCirc]),
  ('Õ', ['O', accTilde]), ('Ö', ['O', accDiaer]),
  ('Ù', ['U', accGrave]), ('Ú', ['U', accAcute]), ('Û', ['U', accCirc]),
  ('Ü', ['U', accDiaer]),
  ('Ç', ['C', accCedil]), ('Ñ', ['N', accTilde])]

def nfdChar (c : Char) : Str := (decompTable.lookup c).getD [c]

def nfdStr : Str → Str
  | [] => []
  | c :: cs => nfdChar c ++ nfdStr cs

/-- `normalizeText` from the source:
`input.normalize('NFD').replace(/[̀-ͯ]/g, '')`. -/
def normalizeText (input : Str) : Str :=
  (nfdStr input).filter (fun c => !combining c)

/-- `needle` is a prefix of `hay` (JS `String.prototype.startsWith`). -/
def startsWith : Str → Str → Bool
  | _, [] => true
  | [], _ :: _ => false
  | c :: cs, d :: ds => c == d && startsWith cs ds

/-- `needle` occurs contiguously in `hay` (JS `String.prototype.includes`). -/
def includesSub : Str → Str → Bool
  | [], needle => needle.isEmpty
  | c :: cs, needle => startsWith (c :: cs) needle || includesSub cs needle

/-- The character class `[\w'-]` of `WORD_REGEX` (no `u` flag: `\w` is
`[A-Za-z0-9_]` only). -/
def isWordClassChar (c : Char) : Bool :=
  (97 ≤ c.toNat && c.toNat ≤ 122) || (65 ≤ c.toNat && c.toNat ≤ 90) ||
  (48 ≤ c.toNat && c.toNat ≤ 57) || c.toNat == 95 || c.toNat == 39 ||
  c.toNat == 45

def dropTrailingHyphens (w : Str) : Str :=
  (w.reverse.dropWhile (fun c => c.toNat == 45)).reverse

/-- The match a single maximal word-class run contributes: the run minus its
trailing hyphens (the `(?<!-)` backtracking), or nothing if only hyphens
remain. -/
def emitRun (run : Str) : List Str :=
  let w := dropTrailingHyphens run
  if w.isEmpty then [] else [w]

/-- Scan the text, accumulating the current maximal word-class run in `cur`
and emitting its trimmed match at each run boundary. -/
def matchWordsAux (cur : Str) : Str → List Str
  | [] => emitRun cur
  | c :: rest =>
    if isWordClassChar c then matchWordsAux (cur ++ [c]) rest
    else emitRun cur ++ matchWordsAux [] rest

/-- `text.match(WORD_REGEX) || []` with `WORD_REGEX = /[\w'-]+(?<!-)/g`
(see the header comment for why run-at-a-time scanning is exact). -/
def matchWords (text : Str) : List Str := matchWordsAux [] text

structure ValidationResult where
  isValid : Bool
  error : Option Str
deriving DecidableEq

/-- `VOWELS` from the source: an array of one-character strings. -/
def VOWELS : List Str := [['a'], ['e'], ['i'], ['o'], ['u'], ['y']]

/-- `CONSONANTS` from the source. -/
def CONSONANTS : List Str :=
  [['b'], ['c'], ['d'], ['f'], ['g'], ['h'], ['j'], ['k'], ['l'], ['m'],
   ['n'], ['p'], ['q'], ['r'], ['s'], ['t'], ['v'], ['w'], ['x'], ['z']]

/-- Lexicographic comparison on UTF-16 code units, the default JS
`Array.prototype.sort` comparator for strings (all characters here are BMP,
so code units coincide with code points). -/
def strLe : Str → Str → Bool
  | [], _ => true
  | _ :: _, [] => false
  | a :: as, b :: bs =>
    if a.toNat < b.toNat then true
    else if b.toNat < a.toNat then false
    else strLe as bs

def insertSorted (s : Str) : List Str → List Str
  | [] => [s]
  | t :: ts => if strLe s t then s :: t :: ts else t :: insertSorted s ts

def sortStrs (l : List Str) : List Str := l.foldr insertSorted []

/-- `ALPHABET = [...VOWELS, ...CONSONANTS].sort()`. -/
def ALPHABET : List Str := sortStrs (VOWELS ++ CONSONANTS)

def lipogramMsg (letter : Str) : Str :=
  "Lettre interdite détectée : \"".data ++ letter ++ "\"".data

def monovocalismMsg (ch : Str) : Str :=
  "Voyelle non autorisée détectée : \"".data ++ ch ++ "\"".data

def tautogramMsg (word letter : Str) : Str :=
  "Le mot \"".data ++ word ++ "\" ne commence pas par \"".data ++
    letter ++ "\"".data

def alliterationMsg (word letter : Str) : Str :=
  "Le mot \"".data ++ word ++ "\" ne commence pas par la consonne \"".data ++
    letter ++ "\"".data

/-- The `validate` field of the `lipogram` constraint. -/
def lipogramValidate (text param : Str) : ValidationResult :=
  let forbiddenLetter := jsToLowerStr param
  let normalizedText := normalizeText (jsToLowerStr text)
  if includesSub normalizedText forbiddenLetter then
    ⟨false, some (lipogramMsg forbiddenLetter)⟩
  else ⟨true, none⟩

/-- The `for (const char of normalizedText)` loop of the `monovocalism`
validator: `char` iterates code points, compared against the one-character
strings in `otherVowels` by `Array.prototype.includes`. -/
def monovocalismGo (otherVowels : List Str) : Str → ValidationResult
  | [] => ⟨true, none⟩
  | ch :: rest =>
    if otherVowels.contains [ch] then ⟨false, some (monovocalismMsg [ch])⟩
    else monovocalismGo otherVowels rest

/-- The `validate` field of the `monovocalism` constraint. -/
def monovocalismValidate (text param : Str) : ValidationResult :=
  let allowedVowel := jsToLowerStr param
  let otherVowels := VOWELS.filter (fun v => !(v == allowedVowel))
  monovocalismGo otherVowels (normalizeText (jsToLowerStr text))

/-- The `for (const word of words)` loop of the `tautogram` validator. -/
def tautogramGo (initialLetter : Str) : List Str → ValidationResult
  | [] => ⟨true, none⟩
  | w :: ws =>
    if startsWith (normalizeText (jsToLowerStr w)) initialLetter then
      tautogramGo initialLetter ws
    else ⟨false, some (tautogramMsg w initialLetter)⟩

/-- The `validate` field of the `tautogram` constraint. -/
def tautogramValidate (text param : Str) : ValidationResult :=
  tautogramGo (jsToLowerStr param) (matchWords text)

/-- The `for (const word of words)` loop of the `alliteration` validator. -/
def alliterationGo (initialConsonant : Str) : List Str → ValidationResult
  | [] => ⟨true, none⟩
  | w :: ws =>
    if startsWith (normalizeText (jsToLowerStr w)) initialConsonant then
      alliterationGo initialConsonant ws
    else ⟨false, some (alliterationMsg w initialConsonant)⟩

/-- The `validate` field of the `alliteration` constraint. -/
def alliterationValidate (text param : Str) : ValidationResult :=
  alliterationGo (jsToLowerStr param) (matchWords text)

/-- ASCII upper-casing, used only to state case-insensitivity claims about
the lowercase option letters. -/
def upperAscii (c : Char) : Char :=
  if 97 ≤ c.toNat && c.toNat ≤ 122 then Char.ofNat (c.toNat - 32) else c

def upperStr (s : Str) : Str := s.map upperAscii

/-! ### Helper lemmas -/

theorem includesSub_nil (hay : Str) : includesSub hay [] = true := by
  cases hay <;> simp [includesSub, startsWith, List.isEmpty]

theorem monovocalismGo_isValid (ov : List Str) (l : Str) :
    (monovocalismGo ov l).isValid = l.all (fun ch => !(ov.contains [ch])) := by
  induction l with
  | nil => rfl
  | cons c cs ih =>
    by_cases h : [c] ∈ ov <;> simp [monovocalismGo, h, ih]

theorem tautogramGo_isValid (p : Str) (ws : List Str) :
    (tautogramGo p ws).isValid
      = ws.all (fun w => startsWith (normalizeText (jsToLowerStr w)) p) := by
  induction ws with
  | nil => rfl
  | cons w ws ih =>
    by_cases h : startsWith (normalizeText (jsToLowerStr w)) p <;>
      simp [tautogramGo, h, ih]

theorem alliterationGo_isValid (p : Str) (ws : List Str) :
    (alliterationGo p ws).isValid
      = ws.all (fun w => startsWith (normalizeText (jsToLowerStr w)) p) := by
  induction ws with
  | nil => rfl
  | cons w ws ih =>
    by_cases h : startsWith (normalizeText (jsToLowerStr w)) p <;>
      simp [alliterationGo, h, ih]

theorem tautogram_alliteration_go_pair (p : Str) (ws : List Str) :
    (tautogramGo p ws = ⟨true, none⟩ ∧ alliterationGo p ws = ⟨true, none⟩)
    ∨ ∃ w, tautogramGo p ws = ⟨false, some (tautogramMsg w p)⟩
        ∧ alliterationGo p ws = ⟨false, some (alliterationMsg w p)⟩ := by
  induction ws with
  | nil => exact Or.inl ⟨rfl, rfl⟩
  | cons w ws ih =>
    by_cases h : startsWith (normalizeText (jsToLowerStr w)) p
    · simpa [tautogramGo, alliterationGo, h] using ih
    · exact Or.inr ⟨w, by simp [tautogramGo, h], by simp [alliterationGo, h]⟩

theorem lipogram_param_congr (text p q : Str)
    (h : jsToLowerStr p = jsToLowerStr q) :
    lipogramValidate text p = lipogramValidate text q := by
  simp only [lipogramValidate, h]

theorem lookup_pair_mem :
    ∀ (l : List (Char × Str)) (a : Char) (b : Str),
      l.lookup a = some b → (a, b) ∈ l := by
  intro l
  induction l with
  | nil => intro a b h; simp [List.lookup] at h
  | cons p t ih =>
    intro a b h
    obtain ⟨k, v⟩ := p
    by_cases hk : a == k
    · simp only [List.lookup, hk, cond_true] at h
      obtain rfl : v = b := by injection h
      obtain rfl : a = k := by exact eq_of_beq hk
      exact List.mem_cons_self _ _
    · simp only [List.lookup, hk, cond_false] at h
      exact List.mem_cons_of_mem _ (ih a b h)

set_option maxHeartbeats 1000000

theorem decompTable_output_fresh :
    ∀ pr ∈ decompTable, ∀ d ∈ pr.2, combining d = false →
      decompTable.lookup d = none := by decide

theorem nfdChar_output_fixed (c : Char) :
    ∀ d ∈ (nfdChar c).filter (fun x => !combining x),
      nfdChar d = [d] ∧ combining d = false := by
  intro d hd
  unfold nfdChar at hd
  cases h : decompTable.lookup c with
  | none =>
    rw [h] at hd
    simp only [Option.getD_none, List.mem_filter, List.mem_singleton] at hd
    obtain ⟨rfl, hcomb⟩ := hd
    rw [Bool.not_eq_true'] at hcomb
    exact ⟨by unfold nfdChar; rw [h]; rfl, hcomb⟩
  | some l =>
    rw [h] at hd
    simp only [Option.getD_some, List.mem_filter] at hd
    obtain ⟨hdl, hcomb⟩ := hd
    rw [Bool.not_eq_true'] at hcomb
    have hmem : (c, l) ∈ decompTable := lookup_pair_mem _ _ _ h
    have hfresh := decompTable_output_fresh (c, l) hmem d hdl hcomb
    exact ⟨by unfold nfdChar; rw [hfresh]; rfl, hcomb⟩

theorem normalizeText_cons (c : Char) (cs : Str) :
    normalizeText (c :: cs)
      = (nfdChar c).filter (fun x => !combining x) ++ normalizeText cs := by
  simp [normalizeText, nfdStr, List.filter_append]

theorem normalizeText_chars_fixed (s : Str) :
    ∀ d ∈ normalizeText s, nfdChar d = [d] ∧ combining d = false := by
  induction s with
  | nil => intro d hd; simp [normalizeText, nfdStr] at hd
  | cons c cs ih =>
    intro d hd
    rw [normalizeText_cons, List.mem_append] at hd
    rcases hd with hd | hd
    · exact nfdChar_output_fixed c d hd
    · exact ih d hd

theorem normalizeText_fixpoint :
    ∀ t : Str, (∀ d ∈ t, nfdChar d = [d] ∧ combining d = false) →
      normalizeText t = t := by
  intro t
  induction t with
  | nil => intro _; rfl
  | cons d t ih =>
    intro h
    obtain ⟨hfix, hcomb⟩ := h d (List.mem_cons_self _ _)
    rw [normalizeText_cons, hfix]
    have hflt : List.filter (fun x => !combining x) [d] = [d] := by
      simp [hcomb]
    rw [hflt, ih (fun x hx => h x (List.mem_cons_of_mem _ hx))]
    rfl

/-! ### Claim theorems -/

/-- C1 counterexample: the lipogram constraint's declared options are
`ALPHABET`, the parameter `"B"` is not among them, yet
`validate("b", "B")` returns `isValid = false` (the forbidden letter is
lowercased before matching), refuting the claim that an out-of-domain
parameter always yields `isValid = true`. -/
theorem out_of_domain_param_counterexample :
    ALPHABET.contains ['B'] = false
    ∧ (lipogramValidate ['b'] ['B']).isValid = false := by
  exact ⟨by decide, by decide⟩

/-- C1 amended: no validator performs any parameter-domain check — for every
text and every parameter string whatsoever (in or out of the declared option
set), `isValid` is determined solely by the validator's ordinary matching
logic, so a parameter that matches nothing is treated as valid, but an
out-of-domain parameter can still match and yield `isValid = false`. -/
theorem validators_no_param_domain_check : ∀ text param : Str,
    (lipogramValidate text param).isValid
      = !includesSub (normalizeText (jsToLowerStr text)) (jsToLowerStr param)
    ∧ (monovocalismValidate text param).isValid
      = (normalizeText (jsToLowerStr text)).all
          (fun ch =>
            !(VOWELS.filter (fun v => !(v == jsToLowerStr param))).contains [ch])
    ∧ (tautogramValidate text param).isValid
      = (matchWords text).all
          (fun w => startsWith (normalizeText (jsToLowerStr w)) (jsToLowerStr param))
    ∧ (alliterationValidate text param).isValid
      = (matchWords text).all
          (fun w => startsWith (normalizeText (jsToLowerStr w)) (jsToLowerStr param)) := by
  intro text param
  refine ⟨?_, ?_, ?_, ?_⟩
  · by_cases h : includesSub (normalizeText (jsToLowerStr text)) (jsToLowerStr param) <;>
      simp [lipogramValidate, h]
  · exact monovocalismGo_isValid _ _
  · exact tautogramGo_isValid _ _
  · exact alliterationGo_isValid _ _

/-- C2: evaluation of the word tokenizer at the diverging input.  Because
`\w` in `WORD_REGEX` matches only ASCII word characters, `è` splits the
token, so `"grand-mère dit-elle"` yields `["grand-m", "re", "dit-elle"]`
rather than the specified `["grand-mère", "dit-elle"]`; the trailing-hyphen
half of the claim (`"bonjour-"` → `["bonjour"]`) does hold. -/
theorem word_regex_ascii_tokenization :
    matchWords "grand-mère dit-elle".data
      = ["grand-m".data, "re".data, "dit-elle".data]
    ∧ matchWords "bonjour-".data = ["bonjour".data] := by
  exact ⟨by decide, by decide⟩

/-- C3 counterexample: `validate("Pierre porte des pommes.", "p")` returns
`isValid = false` (the word `"des"` does not start with `"p"`), refuting the
claim that it returns `isValid = true`. -/
theorem tautogram_example_counterexample :
    (tautogramValidate "Pierre porte des pommes.".data "p".data).isValid
      = false := by decide

/-- C3 amended: the tautogram validator applied to
`"Pierre porte des pommes."` with parameter `"p"` returns `isValid = false`
with an error naming the word `"des"` (the first word not starting with
`"p"`), and applied to `"Pierre mange."` with `"p"` returns
`isValid = false` with an error naming `"mange"`. -/
theorem tautogram_example_amended :
    tautogramValidate "Pierre porte des pommes.".data "p".data
      = ⟨false, some (tautogramMsg "des".data ['p'])⟩
    ∧ tautogramValidate "Pierre mange.".data "p".data
      = ⟨false, some (tautogramMsg "mange".data ['p'])⟩ := by
  exact ⟨by decide, by decide⟩

/-- C4: for every text and every single-letter parameter whose lowercase
form is in `ALPHABET`, the lipogram validator returns `isValid = false` with
error exactly `Lettre interdite détectée : "<letter>"` (letter lowercased)
iff the lowercased, diacritic-stripped text contains the lowercased
parameter as a substring, and returns `isValid = true` with no error
otherwise; in particular `validate("café", "e")` is invalid because `é`
normalizes to `e`. -/
theorem lipogram_detection_characterization :
    (∀ text p : Str, jsToLowerStr p ∈ ALPHABET →
      ((lipogramValidate text p = ⟨false, some (lipogramMsg (jsToLowerStr p))⟩)
        ↔ includesSub (normalizeText (jsToLowerStr text)) (jsToLowerStr p) = true)
      ∧ ((lipogramValidate text p = ⟨true, none⟩)
        ↔ includesSub (normalizeText (jsToLowerStr text)) (jsToLowerStr p) = false))
    ∧ lipogramValidate "café".data "e".data = ⟨false, some (lipogramMsg ['e'])⟩ := by
  constructor
  · intro text p _
    by_cases h : includesSub (normalizeText (jsToLowerStr text)) (jsToLowerStr p) <;>
      constructor <;> simp [lipogramValidate, h]
  · decide

/-- C4 witness: the characterization applied at text `"café"` and parameter
`"e"` (which is in `ALPHABET`). -/
theorem lipogram_detection_characterization_witness :
    lipogramValidate "café".data ['e']
      = ⟨false, some (lipogramMsg (jsToLowerStr ['e']))⟩ :=
  (lipogram_detection_characterization.1 "café".data ['e'] (by decide)).1.mpr
    (by decide)

/-- C5: for every text and every parameter string (the alliteration
validator never checks that its parameter is a consonant), the alliteration
and tautogram validators agree on `isValid`; either both accept with no
error, or both reject the same word, differing only in the wording of the
error message (`ne commence pas par la consonne` vs `ne commence pas par`). -/
theorem alliteration_tautogram_agree : ∀ text param : Str,
    (alliterationValidate text param).isValid
      = (tautogramValidate text param).isValid
    ∧ ((tautogramValidate text param = ⟨true, none⟩
          ∧ alliterationValidate text param = ⟨true, none⟩)
        ∨ ∃ w, tautogramValidate text param
                = ⟨false, some (tautogramMsg w (jsToLowerStr param))⟩
            ∧ alliterationValidate text param
                = ⟨false, some (alliterationMsg w (jsToLowerStr param))⟩) := by
  intro text param
  refine ⟨?_, ?_⟩
  · rw [tautogramValidate, alliterationValidate, tautogramGo_isValid,
      alliterationGo_isValid]
  · exact tautogram_alliteration_go_pair (jsToLowerStr param) (matchWords text)

/-- C6: the normalizer output never contains a combining mark (the
`replace` erases the whole U+0300–U+036F block after NFD decomposition),
`normalize("été") = "ete"`, `normalize("à") = "a"`, and each accented French
letter é/è/ê/ë, à/â, ù/û, ô, î/ï, ç maps to its base letter. -/
theorem normalizeText_strips_combining :
    (∀ s : Str, ∀ d ∈ normalizeText s, combining d = false)
    ∧ normalizeText "été".data = "ete".data
    ∧ normalizeText "à".data = "a".data
    ∧ normalizeText ['é'] = ['e'] ∧ normalizeText ['è'] = ['e']
    ∧ normalizeText ['ê'] = ['e'] ∧ normalizeText ['ë'] = ['e']
    ∧ normalizeText ['à'] = ['a'] ∧ normalizeText ['â'] = ['a']
    ∧ normalizeText ['ù'] = ['u'] ∧ normalizeText ['û'] = ['u']
    ∧ normalizeText ['ô'] = ['o']
    ∧ normalizeText ['î'] = ['i'] ∧ normalizeText ['ï'] = ['i']
    ∧ normalizeText ['ç'] = ['c'] := by
  refine ⟨?_, by decide, by decide, by decide, by decide, by decide, by decide,
    by decide, by decide, by decide, by decide, by decide, by decide,
    by decide, by decide⟩
  intro s d hd
  exact (normalizeText_chars_fixed s d hd).2

/-- C6 witness: the no-combining-marks property applied to the concrete
input `"é"`, whose normalization contains the character `e`. -/
theorem normalizeText_strips_combining_witness : combining 'e' = false :=
  normalizeText_strips_combining.1 "é".data 'e' (by decide)

/-- C7: the normalizer is idempotent — every character it emits is either a
non-decomposable base character kept by the filter or was never in the
decomposition table, so a second pass changes nothing — and the empty string
maps to the empty string. -/
theorem normalizeText_idempotent :
    (∀ s : Str, normalizeText (normalizeText s) = normalizeText s)
    ∧ normalizeText [] = [] :=
  ⟨fun s => normalizeText_fixpoint _ (normalizeText_chars_fixed s), rfl⟩

/-- C8: on the empty text every one of the four validators returns
`isValid = true` for every parameter in `ALPHABET`; since the vowel and
consonant option lists are sublists of `ALPHABET` (last two conjuncts), this
covers every parameter drawn from each constraint's declared options. -/
theorem empty_text_valid :
    (∀ p ∈ ALPHABET,
      (lipogramValidate [] p).isValid = true
      ∧ (monovocalismValidate [] p).isValid = true
      ∧ (tautogramValidate [] p).isValid = true
      ∧ (alliterationValidate [] p).isValid = true)
    ∧ VOWELS.all (fun p => ALPHABET.contains p) = true
    ∧ CONSONANTS.all (fun p => ALPHABET.contains p) = true := by
  exact ⟨by decide, by decide, by decide⟩

/-- C8 witness: the empty-text property at the concrete option `"a"`. -/
theorem empty_text_valid_witness :
    (lipogramValidate [] ['a']).isValid = true
    ∧ (monovocalismValidate [] ['a']).isValid = true
    ∧ (tautogramValidate [] ['a']).isValid = true
    ∧ (alliterationValidate [] ['a']).isValid = true :=
  empty_text_valid.1 ['a'] (by decide)

/-- C9: the lipogram validator is case-insensitive in its parameter: for
every text and every lowercase letter of the alphabet, passing the uppercase
form of the letter yields exactly the same result (same `isValid`, same
error message) as the lowercase form. -/
theorem lipogram_param_case_insensitive : ∀ (text p : Str), p ∈ ALPHABET →
    lipogramValidate text (upperStr p) = lipogramValidate text p := by
  intro text p hp
  apply lipogram_param_congr
  exact (by decide :
    ∀ q ∈ ALPHABET, jsToLowerStr (upperStr q) = jsToLowerStr q) p hp

/-- C9 witness: `validate("Le chat mange.", "E")` equals
`validate("Le chat mange.", "e")`. -/
theorem lipogram_param_case_insensitive_witness :
    lipogramValidate "Le chat mange.".data (upperStr ['e'])
      = lipogramValidate "Le chat mange.".data ['e'] :=
  lipogram_param_case_insensitive "Le chat mange.".data ['e'] (by decide)

/-- C10: the lipogram validator with the empty-string parameter returns
`isValid = false` for every text (including the empty text), because the
empty string is a substring of every string, so `includes` always matches;
the reported message quotes the empty forbidden letter. -/
theorem lipogram_empty_param_invalid : ∀ text : Str,
    lipogramValidate text [] = ⟨false, some (lipogramMsg [])⟩ := by
  intro text
  simp [lipogramValidate, jsToLowerStr, includesSub_nil]
